import Mathlib

/-!
Verification of the RxBridge days-of-supply classification and alert engine.

The definitions below are a shallow embedding of the inventory logic in
`frontend/src/components/PharmacyStockTable.jsx` (the functions
`getDaysRemaining` and `getStockStatus`, and the `filteredData` sort on the
days-remaining column), of the scan-request guard in
`frontend/src/components/InventoryScanTable.jsx` (`performInventoryScan`),
and of its pagination slice (`paginatedData` with `itemsPerPage = 25`).
JavaScript numbers are modelled as `Int`; the JavaScript `Infinity` value
returned by `getDaysRemaining` when the average daily dispense is zero is
modelled by an explicit sentinel constructor, with the JavaScript comparison
semantics for `Infinity` spelled out case by case.
-/

namespace RxBridge

/-- Stock status tags returned by `getStockStatus` in PharmacyStockTable.jsx:
`shortage` (BLUE), `high` (RED), `medium` (PURPLE), `low` (YELLOW),
`good` (the NONE / optimal band of the spec). -/
inductive Status where
  | shortage
  | high
  | medium
  | low
  | good
  deriving DecidableEq, Repr

/-- A days-remaining value: a finite integer, or the JavaScript `Infinity`
sentinel produced when the average daily dispense is zero. -/
inductive DaysVal where
  | fin (n : Int)
  | inf
  deriving DecidableEq, Repr

/-- JavaScript comparison `d <= k` where `d` may be `Infinity`:
`Infinity <= k` is false for every finite `k`. -/
def DaysVal.jle : DaysVal → Int → Bool
  | .fin m, k => m ≤ k
  | .inf, _ => false

/-- JavaScript comparison `d >= k` where `d` may be `Infinity`:
`Infinity >= k` is true for every finite `k`. -/
def DaysVal.jge : DaysVal → Int → Bool
  | .fin m, k => k ≤ m
  | .inf, _ => true

/-- JavaScript comparison `a < b` on two days-remaining values:
`Infinity < Infinity` is false, any finite value is below `Infinity`. -/
def DaysVal.jlt : DaysVal → DaysVal → Bool
  | .fin m, .fin n => m < n
  | .fin _, .inf => true
  | .inf, _ => false

/-- Embedding of `getDaysRemaining(quantity, avgDaily)` from
PharmacyStockTable.jsx: `if (avgDaily === 0) return Infinity;
return Math.floor(quantity / avgDaily)`. `Math.floor` of an integer
quotient is floor division, `Int.fdiv`. -/
def getDaysRemaining (quantity avgDaily : Int) : DaysVal :=
  if avgDaily = 0 then .inf else .fin (Int.fdiv quantity avgDaily)

/-- Embedding of `getStockStatus(quantity, avgDaily)` from
PharmacyStockTable.jsx: the `quantity <= 50` shortage check first, then the
days-remaining bands `<= 14`, `<= 56`, `>= 57`, with a final `good`
fallthrough. -/
def getStockStatus (quantity avgDaily : Int) : Status :=
  let daysRemaining := getDaysRemaining quantity avgDaily
  if quantity ≤ 50 then .shortage
  else if daysRemaining.jle 14 then .high
  else if daysRemaining.jle 56 then .medium
  else if daysRemaining.jge 57 then .low
  else .good

theorem getDaysRemaining_zero (q : Int) : getDaysRemaining q 0 = .inf := by
  simp [getDaysRemaining]

theorem getDaysRemaining_pos (q a : Int) (ha : a ≠ 0) :
    getDaysRemaining q a = .fin (Int.fdiv q a) := by
  simp [getDaysRemaining, ha]

/-- C4: for average daily dispense zero the days computation returns the
infinite sentinel for every stock value, never a division error and never a
finite value (in particular never zero): the sentinel is a constructor
distinct from every finite integer value. -/
theorem daysRemaining_zero_dispense_infinite :
    (∀ q : Int, getDaysRemaining q 0 = DaysVal.inf) ∧
    (∀ n : Int, DaysVal.inf ≠ DaysVal.fin n) := by
  constructor
  · intro q
    simp [getDaysRemaining]
  · intro n h
    cases h

/-- C2: every item with stock at most 50 is classified `shortage` (BLUE)
whatever its dispense rate: the absolute-quantity check precedes the
days-of-supply bands, so stock 30 with daily 5 (six days of supply) is
`shortage`, not `high`. -/
theorem low_stock_is_shortage (q a : Int) (hq : q ≤ 50) :
    getStockStatus q a = Status.shortage := by
  simp [getStockStatus, hq]

theorem low_stock_is_shortage_witness :
    (30 : Int) ≤ 50 ∧ getDaysRemaining 30 5 = DaysVal.fin 6 ∧
      getStockStatus 30 5 = Status.shortage ∧ Status.shortage ≠ Status.high :=
  ⟨by decide, by decide, low_stock_is_shortage 30 5 (by decide), by decide⟩

/-- C3: with no signal, stock above 50 and positive dispense rate, the days
of supply is the floor of stock over dispense; at most 14 days gives `high`
(RED, the boundary 14 included), and 15 to 56 days gives `medium` (the
PURPLE band). -/
theorem finite_bands (q a : Int) (hq : 50 < q) (ha : 0 < a) :
    getDaysRemaining q a = DaysVal.fin (Int.fdiv q a) ∧
    (Int.fdiv q a ≤ 14 → getStockStatus q a = Status.high) ∧
    (15 ≤ Int.fdiv q a → Int.fdiv q a ≤ 56 → getStockStatus q a = Status.medium) := by
  have ha0 : a ≠ 0 := by omega
  have h50 : ¬ (q ≤ 50) := by omega
  refine ⟨getDaysRemaining_pos q a ha0, ?_, ?_⟩
  · intro h
    simp [getStockStatus, getDaysRemaining, ha0, h50, DaysVal.jle, h]
  · intro h15 h56
    have h14 : ¬ (Int.fdiv q a ≤ 14) := by omega
    simp [getStockStatus, getDaysRemaining, ha0, h50, DaysVal.jle, h14, h56]

theorem finite_bands_witness :
    (50 : Int) < 450 ∧ (0 : Int) < 32 ∧ Int.fdiv 450 32 = 14 ∧
      getStockStatus 450 32 = Status.high :=
  ⟨by decide, by decide, by decide,
    (finite_bands 450 32 (by decide) (by decide)).2.1 (by decide)⟩

/-- C1 counterexample: at stock 1000 and daily dispense 0 the code returns
`low` (the YELLOW eight-weeks-plus band), not the `good` / NONE band the
claim asserts. -/
theorem infinite_supply_not_good :
    getStockStatus 1000 0 = Status.low ∧ Status.low ≠ Status.good := by
  exact ⟨by decide, by decide⟩

/-- C1 amended: for an item with stock above 50 and days of supply infinite
(zero dispense) or strictly greater than 56, `getStockStatus` returns `low`,
the YELLOW-tier eight-weeks-plus band, not the `good` / NONE band. -/
theorem infinite_or_large_supply_is_low (q a : Int) (hq : 50 < q)
    (h : a = 0 ∨ (a ≠ 0 ∧ 56 < Int.fdiv q a)) :
    getStockStatus q a = Status.low := by
  have h50 : ¬ (q ≤ 50) := by omega
  rcases h with rfl | ⟨ha, hd⟩
  · simp [getStockStatus, getDaysRemaining, h50, DaysVal.jle, DaysVal.jge]
  · have h14 : ¬ (Int.fdiv q a ≤ 14) := by omega
    have h56 : ¬ (Int.fdiv q a ≤ 56) := by omega
    have h57 : (57 : Int) ≤ Int.fdiv q a := by omega
    simp [getStockStatus, getDaysRemaining, ha, h50, h14, h56, h57,
      DaysVal.jle, DaysVal.jge]

theorem infinite_or_large_supply_is_low_witness :
    (50 : Int) < 1000 ∧ getStockStatus 1000 0 = Status.low :=
  ⟨by decide, infinite_or_large_supply_is_low 1000 0 (by decide) (Or.inl rfl)⟩

/-- C5 counterexample: at the negative stock input -5 with dispense 3 the
code does not fail: it silently returns the `shortage` classification. -/
theorem negative_stock_silently_classified :
    getStockStatus (-5) 3 = Status.shortage := by
  decide

/-- C5 amended: negative inputs are not rejected with any error condition:
`getStockStatus` is total and classifies them by the same rules, so every
negative stock value falls under the `quantity <= 50` check and returns
`shortage`, and a negative dispense rate with stock above 50 yields a
negative floored quotient and returns `high`. -/
theorem negative_inputs_classified (q a : Int) :
    (q < 0 → getStockStatus q a = Status.shortage) ∧
    (a < 0 → 50 < q → getStockStatus q a = Status.high) := by
  constructor
  · intro hq
    simp [getStockStatus]
    omega
  · intro ha hq
    have ha0 : a ≠ 0 := by omega
    have h50 : ¬ (q ≤ 50) := by omega
    have hdiv : Int.fdiv q a ≤ 0 := Int.fdiv_nonpos (by omega) (by omega)
    have h14 : Int.fdiv q a ≤ 14 := by omega
    simp [getStockStatus, getDaysRemaining, ha0, h50, h14, DaysVal.jle]

theorem negative_inputs_classified_witness :
    getStockStatus (-5) 3 = Status.shortage :=
  (negative_inputs_classified (-5) 3).1 (by decide)

/-- C9: for non-negative inputs the classification always lands in one of
the four flagged statuses `shortage`, `high`, `medium`, `low`; the `good` /
optimal outcome is never produced, and in particular a zero-dispense item
with stock above 50 lands in `low` rather than being left unflagged. -/
theorem status_never_good (q a : Int) (_hq : 0 ≤ q) (_ha : 0 ≤ a) :
    (getStockStatus q a = Status.shortage ∨ getStockStatus q a = Status.high ∨
      getStockStatus q a = Status.medium ∨ getStockStatus q a = Status.low) ∧
    getStockStatus q a ≠ Status.good ∧
    (a = 0 → 50 < q → getStockStatus q a = Status.low) := by
  have hmain : getStockStatus q a = Status.shortage ∨ getStockStatus q a = Status.high ∨
      getStockStatus q a = Status.medium ∨ getStockStatus q a = Status.low := by
    by_cases hq50 : q ≤ 50
    · left
      simp [getStockStatus, hq50]
    · by_cases ha0 : a = 0
      · subst ha0
        right; right; right
        simp [getStockStatus, getDaysRemaining, hq50, DaysVal.jle, DaysVal.jge]
      · rcases le_or_lt (Int.fdiv q a) 14 with h14 | h14
        · right; left
          simp [getStockStatus, getDaysRemaining, ha0, hq50, h14, DaysVal.jle]
        · rcases le_or_lt (Int.fdiv q a) 56 with h56 | h56
          · have h14n : ¬ (Int.fdiv q a ≤ 14) := by omega
            right; right; left
            simp [getStockStatus, getDaysRemaining, ha0, hq50, h14n, h56, DaysVal.jle]
          · have h14n : ¬ (Int.fdiv q a ≤ 14) := by omega
            have h56n : ¬ (Int.fdiv q a ≤ 56) := by omega
            have h57 : (57 : Int) ≤ Int.fdiv q a := by omega
            right; right; right
            simp [getStockStatus, getDaysRemaining, ha0, hq50, h14n, h56n, h57,
              DaysVal.jle, DaysVal.jge]
  refine ⟨hmain, ?_, ?_⟩
  · intro hgood
    rcases hmain with h | h | h | h <;> rw [h] at hgood <;> cases hgood
  · intro ha0 hq50
    subst ha0
    have h50 : ¬ (q ≤ 50) := by omega
    simp [getStockStatus, getDaysRemaining, h50, DaysVal.jle, DaysVal.jge]

theorem status_never_good_witness :
    (0 : Int) ≤ 100 ∧ (0 : Int) ≤ 0 ∧ getStockStatus 100 0 = Status.low :=
  ⟨by decide, by decide, (status_never_good 100 0 (by decide) (by decide)).2.2 rfl (by decide)⟩

/-- One row of the pharmacy stock table: name, current stock, and average
daily dispensed units, as loaded from the CSV in PharmacyStockTable.jsx. -/
structure StockItem where
  name : String
  quantity : Int
  avgDailyDispensed : Int
  deriving DecidableEq, Repr

/-- The days-remaining sort key of an item, as computed inside the sort
comparator of `filteredData` for the daysRemaining column. -/
def daysKey (it : StockItem) : DaysVal :=
  getDaysRemaining it.quantity it.avgDailyDispensed

/-- The ascending comparator of `filteredData` reports a before b exactly
when the key of a is below the key of b. -/
def ltAsc (a b : StockItem) : Bool := (daysKey a).jlt (daysKey b)

/-- The descending comparator reports a before b exactly when the key of b
is below the key of a. -/
def ltDesc (a b : StockItem) : Bool := (daysKey b).jlt (daysKey a)

/-- Insert x into l in front of the first element that the comparator does
not place strictly before x. This is the insertion step of a stable sort:
elements the comparator ties with x keep their position in front of x. -/
def insertBefore (lt : α → α → Bool) (x : α) : List α → List α
  | [] => [x]
  | y :: ys => if lt y x then y :: insertBefore lt x ys else x :: y :: ys

/-- Stable sort with a strict Boolean comparator, modelling the
ECMAScript-mandated stable `Array.prototype.sort`. -/
def stableSort (lt : α → α → Bool) : List α → List α
  | [] => []
  | x :: xs => insertBefore lt x (stableSort lt xs)

/-- The `filteredData` sort of PharmacyStockTable.jsx on the daysRemaining
column in ascending direction. -/
def sortByDaysAsc (l : List StockItem) : List StockItem := stableSort ltAsc l

/-- The `filteredData` sort of PharmacyStockTable.jsx on the daysRemaining
column in descending direction. -/
def sortByDaysDesc (l : List StockItem) : List StockItem := stableSort ltDesc l

/-- An item has infinite supply exactly when it dispenses zero units a day. -/
def isInfSupply (it : StockItem) : Bool := it.avgDailyDispensed == 0

theorem insertBefore_perm (lt : α → α → Bool) (x : α) (l : List α) :
    List.Perm (insertBefore lt x l) (x :: l) := by
  induction l with
  | nil => simp [insertBefore]
  | cons y ys ih =>
    simp only [insertBefore]
    split
    · exact (ih.cons y).trans (List.Perm.swap x y ys)
    · exact List.Perm.refl _

theorem stableSort_perm (lt : α → α → Bool) (l : List α) :
    List.Perm (stableSort lt l) l := by
  induction l with
  | nil => exact List.Perm.refl _
  | cons x xs ih =>
    exact (insertBefore_perm lt x (stableSort lt xs)).trans (ih.cons x)

theorem insertBefore_pairwise (lt : α → α → Bool)
    (hasym : ∀ a b, lt a b = true → lt b a = false)
    (hneg : ∀ a b c, lt b a = false → lt c b = false → lt c a = false)
    (x : α) (l : List α) (hl : l.Pairwise (fun a b => lt b a = false)) :
    (insertBefore lt x l).Pairwise (fun a b => lt b a = false) := by
  induction l with
  | nil => simp [insertBefore]
  | cons y ys ih =>
    rcases List.pairwise_cons.mp hl with ⟨hy, hys⟩
    simp only [insertBefore]
    split
    case isTrue h =>
      refine List.pairwise_cons.mpr ⟨?_, ih hys⟩
      intro z hz
      rcases List.mem_cons.mp ((insertBefore_perm lt x ys).mem_iff.mp hz) with rfl | hz2
      · exact hasym y z h
      · exact hy z hz2
    case isFalse h =>
      refine List.pairwise_cons.mpr ⟨?_, hl⟩
      intro z hz
      have hyx : lt y x = false := by
        cases hxy : lt y x
        · rfl
        · exact absurd hxy h
      rcases List.mem_cons.mp hz with rfl | hz2
      · exact hyx
      · exact hneg x y z hyx (hy z hz2)

theorem stableSort_pairwise (lt : α → α → Bool)
    (hasym : ∀ a b, lt a b = true → lt b a = false)
    (hneg : ∀ a b c, lt b a = false → lt c b = false → lt c a = false)
    (l : List α) :
    (stableSort lt l).Pairwise (fun a b => lt b a = false) := by
  induction l with
  | nil => simp [stableSort]
  | cons x xs ih =>
    exact insertBefore_pairwise lt hasym hneg x (stableSort lt xs) ih

theorem filter_insertBefore_out (lt : α → α → Bool) (p : α → Bool) (x : α)
    (hx : p x = false) (l : List α) :
    (insertBefore lt x l).filter p = l.filter p := by
  induction l with
  | nil => simp [insertBefore, hx]
  | cons y ys ih =>
    simp only [insertBefore]
    split
    · simp only [List.filter_cons, ih]
    · simp [List.filter_cons, hx]

theorem filter_insertBefore_in (lt : α → α → Bool) (p : α → Bool) (x : α)
    (hx : p x = true) (hcl : ∀ y, lt y x = true → p y = false) (l : List α) :
    (insertBefore lt x l).filter p = x :: l.filter p := by
  induction l with
  | nil => simp [insertBefore, hx]
  | cons y ys ih =>
    simp only [insertBefore]
    split
    case isTrue h =>
      have hpy : p y = false := hcl y h
      simp [List.filter_cons, hpy, ih]
    case isFalse h =>
      simp [List.filter_cons, hx]

theorem stableSort_stable (lt : α → α → Bool) (p : α → Bool)
    (hp : ∀ a b, p a = true → p b = true → lt a b = false) (l : List α) :
    (stableSort lt l).filter p = l.filter p := by
  induction l with
  | nil => rfl
  | cons x xs ih =>
    simp only [stableSort]
    cases hx : p x
    · rw [filter_insertBefore_out lt p x hx, ih]
      simp [List.filter_cons, hx]
    · have hcl : ∀ y, lt y x = true → p y = false := by
        intro y hy
        cases hpy : p y
        · rfl
        · have := hp y x hpy hx
          rw [this] at hy
          cases hy
      rw [filter_insertBefore_in lt p x hx hcl, ih]
      simp [List.filter_cons, hx]

theorem jlt_asym (u v : DaysVal) (h : u.jlt v = true) : v.jlt u = false := by
  cases u <;> cases v <;> simp [DaysVal.jlt] at h ⊢ <;> omega

theorem jlt_negtrans (u v w : DaysVal) (h1 : v.jlt u = false)
    (h2 : w.jlt v = false) : w.jlt u = false := by
  cases u <;> cases v <;> cases w <;> simp [DaysVal.jlt] at h1 h2 ⊢ <;> omega

theorem isInfSupply_iff (it : StockItem) :
    isInfSupply it = true ↔ daysKey it = DaysVal.inf := by
  unfold isInfSupply daysKey getDaysRemaining
  by_cases h : it.avgDailyDispensed = 0 <;> simp [h]

/-- C6: sorting on the days-remaining column is a permutation of the input;
ascending order puts every infinite-supply (zero-usage) item after every
finite-supply item, descending order puts every infinite-supply item before
every finite one, and the sort is stable: the relative order of any set of
items the comparator ties (reports no strict order among them) is exactly
their relative order in the input. -/
theorem sort_by_days_infinite_placement (l : List StockItem) :
    List.Perm (sortByDaysAsc l) l ∧
    List.Perm (sortByDaysDesc l) l ∧
    (sortByDaysAsc l).Pairwise
      (fun a b => isInfSupply a = true → isInfSupply b = true) ∧
    (sortByDaysDesc l).Pairwise
      (fun a b => isInfSupply b = true → isInfSupply a = true) ∧
    (∀ p : StockItem → Bool,
      (∀ a b, p a = true → p b = true → ltAsc a b = false) →
      (sortByDaysAsc l).filter p = l.filter p ∧
        (sortByDaysDesc l).filter p = l.filter p) := by
  have hasymA : ∀ a b, ltAsc a b = true → ltAsc b a = false := by
    intro a b h
    exact jlt_asym _ _ h
  have hnegA : ∀ a b c : StockItem,
      ltAsc b a = false → ltAsc c b = false → ltAsc c a = false := by
    intro a b c h1 h2
    exact jlt_negtrans _ _ _ h1 h2
  have hasymD : ∀ a b, ltDesc a b = true → ltDesc b a = false := by
    intro a b h
    exact jlt_asym _ _ h
  have hnegD : ∀ a b c : StockItem,
      ltDesc b a = false → ltDesc c b = false → ltDesc c a = false := by
    intro a b c h1 h2
    exact jlt_negtrans _ _ _ h2 h1
  refine ⟨stableSort_perm _ l, stableSort_perm _ l, ?_, ?_, ?_⟩
  · refine (stableSort_pairwise ltAsc hasymA hnegA l).imp ?_
    intro a b hab hia
    rw [isInfSupply_iff] at hia ⊢
    cases hkb : daysKey b with
    | inf => rfl
    | fin n =>
      exfalso
      have : ltAsc b a = true := by
        simp [ltAsc, hkb, hia, DaysVal.jlt]
      rw [this] at hab
      cases hab
  · refine (stableSort_pairwise ltDesc hasymD hnegD l).imp ?_
    intro a b hab hib
    rw [isInfSupply_iff] at hib ⊢
    cases hka : daysKey a with
    | inf => rfl
    | fin n =>
      exfalso
      have : ltDesc b a = true := by
        simp [ltDesc, hka, hib, DaysVal.jlt]
      rw [this] at hab
      cases hab
  · intro p hp
    have hpD : ∀ a b, p a = true → p b = true → ltDesc a b = false := by
      intro a b ha hb
      exact hp b a hb ha
    exact ⟨stableSort_stable ltAsc p hp l, stableSort_stable ltDesc p hpD l⟩

theorem sort_by_days_infinite_placement_witness :
    (sortByDaysAsc [⟨"A", 100, 0⟩, ⟨"B", 100, 2⟩, ⟨"C", 200, 0⟩]).Pairwise
      (fun a b => isInfSupply a = true → isInfSupply b = true) ∧
    (sortByDaysAsc [⟨"A", 100, 0⟩, ⟨"B", 100, 2⟩, ⟨"C", 200, 0⟩]).filter
        (fun it => it.avgDailyDispensed == 0) =
      ([⟨"A", 100, 0⟩, ⟨"B", 100, 2⟩, ⟨"C", 200, 0⟩] : List StockItem).filter
        (fun it => it.avgDailyDispensed == 0) := by
  have h := sort_by_days_infinite_placement [⟨"A", 100, 0⟩, ⟨"B", 100, 2⟩, ⟨"C", 200, 0⟩]
  refine ⟨h.2.2.1, ?_⟩
  refine (h.2.2.2.2 (fun it => it.avgDailyDispensed == 0) ?_).1
  intro a b ha hb
  have ha0 : a.avgDailyDispensed = 0 := by simpa using ha
  simp [ltAsc, daysKey, getDaysRemaining, ha0, DaysVal.jlt]

/-- The UI state relevant to the scan guard in InventoryScanTable.jsx: the
`loading` flag, the number of scan requests currently in flight, and the
number of fetch calls issued so far. -/
structure ScanState where
  loading : Bool
  inFlight : Nat
  fetchCount : Nat
  deriving DecidableEq, Repr

/-- Outcome of one call to `performInventoryScan`: either rejected by the
guard with a toast error, or started (a fetch is issued). -/
inductive ScanOutcome where
  | rejected
  | started
  deriving DecidableEq, Repr

/-- Embedding of the synchronous guard of `performInventoryScan`: when
`loading` is set the call shows an error toast and returns with no state
change and no fetch; otherwise it sets `loading`, issues the fetch, and the
scan becomes in flight. -/
def performScanRequest (s : ScanState) : ScanState × ScanOutcome :=
  if s.loading then (s, .rejected)
  else ({ loading := true, inFlight := s.inFlight + 1,
          fetchCount := s.fetchCount + 1 }, .started)

/-- Embedding of the `finally` block of `performInventoryScan`: the awaited
fetch settles, `loading` is cleared and the scan leaves flight. -/
def finishScan (s : ScanState) : ScanState :=
  { s with loading := false, inFlight := s.inFlight - 1 }

/-- The two externally visible events of the scan workflow. -/
inductive ScanEvent where
  | request
  | finish

/-- One step of the scan session: a user scan request or the settling of the
outstanding fetch. -/
def scanStep (s : ScanState) : ScanEvent → ScanState
  | .request => (performScanRequest s).1
  | .finish => finishScan s

/-- The initial component state: `useState(false)` for loading, nothing in
flight, no fetch issued. -/
def initialScanState : ScanState := ⟨false, 0, 0⟩

/-- The state after a session processes a list of events in order. -/
def runScan (evs : List ScanEvent) : ScanState :=
  evs.foldl scanStep initialScanState

theorem scanStep_invariant (s : ScanState) (evs : List ScanEvent)
    (h : s.inFlight = if s.loading then 1 else 0) :
    (evs.foldl scanStep s).inFlight =
      if (evs.foldl scanStep s).loading then 1 else 0 := by
  induction evs generalizing s with
  | nil => exact h
  | cons e rest ih =>
    cases e with
    | request =>
      cases hl : s.loading with
      | false =>
        simp only [List.foldl_cons]
        refine ih _ ?_
        simp only [hl, if_neg Bool.false_ne_true] at h
        simp [scanStep, performScanRequest, hl, h]
      | true =>
        simp only [List.foldl_cons]
        refine ih _ ?_
        simpa [scanStep, performScanRequest, hl] using h
    | finish =>
      simp only [List.foldl_cons]
      refine ih _ ?_
      have hle : s.inFlight ≤ 1 := by
        rw [h]
        split <;> omega
      simp [scanStep, finishScan]
      omega

/-- C7: a scan request arriving while the loading flag is set is rejected
immediately with no fetch and no state change, and along every event
sequence of a session at most one scan is ever in flight. -/
theorem scan_guard_single_flight :
    (∀ s : ScanState, s.loading = true →
      performScanRequest s = (s, ScanOutcome.rejected)) ∧
    (∀ evs : List ScanEvent, (runScan evs).inFlight ≤ 1) := by
  constructor
  · intro s h
    simp [performScanRequest, h]
  · intro evs
    have h := scanStep_invariant initialScanState evs (by rfl)
    rw [show runScan evs = evs.foldl scanStep initialScanState from rfl, h]
    split <;> omega

theorem scan_guard_single_flight_witness :
    performScanRequest ⟨true, 1, 3⟩ = (⟨true, 1, 3⟩, ScanOutcome.rejected) ∧
      (runScan [ScanEvent.request, ScanEvent.request]).inFlight ≤ 1 :=
  ⟨scan_guard_single_flight.1 ⟨true, 1, 3⟩ rfl,
    scan_guard_single_flight.2 [ScanEvent.request, ScanEvent.request]⟩

/-- The five alert levels of the scan response, NONE included. -/
inductive AlertLevel where
  | RED
  | PURPLE
  | YELLOW
  | BLUE
  | NONE
  deriving DecidableEq, Repr

/-- One classified item of a scan response, reduced to the fields the
summary aggregation reads. -/
structure ClassifiedItem where
  drug_name : String
  alert_level : AlertLevel
  deriving Repr

/-- The scan summary record rendered by InventoryScanTable.jsx: total item
count, per-level breakdown counts, and the attention count. -/
structure ScanSummary where
  total_items_checked : Nat
  countRED : Nat
  countPURPLE : Nat
  countYELLOW : Nat
  countBLUE : Nat
  countNONE : Nat
  items_requiring_attention : Nat
  deriving DecidableEq, Repr

/-- Count of items carrying a given alert level. -/
def countLevel (items : List ClassifiedItem) (lvl : AlertLevel) : Nat :=
  (items.filter (fun it => it.alert_level == lvl)).length

/-- Modelled from the spec: the backend `summarize` operation of section 4.2
is not present under src/ (only its caller, the summary-stats rendering of
InventoryScanTable.jsx, is); per the spec, `total_items_checked` is the list
length, `alert_breakdown` counts the items at each level including NONE, and
`items_requiring_attention` counts the items whose level is not NONE. -/
def summarize (items : List ClassifiedItem) : ScanSummary :=
  { total_items_checked := items.length
    countRED := countLevel items .RED
    countPURPLE := countLevel items .PURPLE
    countYELLOW := countLevel items .YELLOW
    countBLUE := countLevel items .BLUE
    countNONE := countLevel items .NONE
    items_requiring_attention :=
      (items.filter (fun it => !(it.alert_level == .NONE))).length }

theorem countLevel_cons (it : ClassifiedItem) (rest : List ClassifiedItem)
    (lvl : AlertLevel) :
    countLevel (it :: rest) lvl =
      (if it.alert_level = lvl then 1 else 0) + countLevel rest lvl := by
  by_cases h : it.alert_level = lvl <;>
    simp [countLevel, List.filter_cons, beq_iff_eq, h, Nat.add_comm]

theorem countLevel_total (items : List ClassifiedItem) :
    countLevel items .RED + countLevel items .PURPLE + countLevel items .YELLOW +
      countLevel items .BLUE + countLevel items .NONE = items.length := by
  induction items with
  | nil => rfl
  | cons it rest ih =>
    rw [countLevel_cons, countLevel_cons, countLevel_cons, countLevel_cons,
      countLevel_cons, List.length_cons]
    cases h : it.alert_level <;> simp [h] <;> omega

/-- C8: summarize is idempotent (two calls on the same list agree), and the
alert breakdown counts over all five levels, NONE included, sum to the total
item count. -/
theorem summarize_idempotent_and_total (items : List ClassifiedItem) :
    summarize items = summarize items ∧
    (summarize items).countRED + (summarize items).countPURPLE +
      (summarize items).countYELLOW + (summarize items).countBLUE +
      (summarize items).countNONE = (summarize items).total_items_checked :=
  ⟨rfl, countLevel_total items⟩

/-- The fixed page size of InventoryScanTable.jsx, `useState(25)`. -/
def itemsPerPage : Nat := 25

/-- Embedding of the `paginatedData` memo of InventoryScanTable.jsx:
`filteredData.slice(startIndex, endIndex)` with
`startIndex = (currentPage - 1) * itemsPerPage` and
`endIndex = startIndex + itemsPerPage`. -/
def paginatedData (filteredData : List ClassifiedItem) (currentPage : Nat) :
    List ClassifiedItem :=
  let startIndex := (currentPage - 1) * itemsPerPage
  (filteredData.drop startIndex).take itemsPerPage

/-- C10: whatever the filtered list (hence whatever scan result, search term
and level filter produced it) and whatever the page number, the rendered
page holds at most `itemsPerPage` items, and that constant is 25. -/
theorem paginatedData_le_pagesize (filteredData : List ClassifiedItem)
    (currentPage : Nat) :
    (paginatedData filteredData currentPage).length ≤ itemsPerPage ∧
      itemsPerPage = 25 := by
  refine ⟨?_, rfl⟩
  simp only [paginatedData]
  exact List.length_take_le _ _

end RxBridge
